import Mathlib

/-!
Shallow embedding of the realtime call pipeline of this repository
(`src/App.tsx`, two app variants: the simple dialer app, suffix `A`, and the
template-based CSR-studio app, suffix `B`), together with proofs of the
behavioural properties stated in the design document.

Modelling conventions:
* Audio-clock times and fragment durations are rationals (`ℚ`).  Each inbound
  server message is handled atomically at a single clock reading `clock`,
  which stands for `outputAudioContext.currentTime` at handling time.
* A scheduled output buffer source is a `Frag` recording its scheduled start
  offset and its duration.  `source.stop()` is modelled by moving the fragment
  into the `stopped` log.
* Browser resources (session handle, microphone stream, audio contexts,
  script processor node) are modelled as booleans: `true` means the resource
  is currently acquired/held by the corresponding ref.
* `generateSummary(finalTranscript)` is modelled by recording its argument in
  `summaryRequested`; `setLastCallTranscript` by `lastCallTranscript`.
-/

/-- Transcript speakers (`src/types.ts` and `src/unnamed/part_001`; the simple
variant only ever uses `User`/`Agent`, the template variant also `System`). -/
inductive Speaker
  | User
  | Agent
  | System
  deriving DecidableEq, Repr

/-- `TranscriptEntry` from `src/types.ts`: `{ speaker, text }`. -/
structure TranscriptEntry where
  speaker : Speaker
  text : String
  deriving DecidableEq, Repr

instance : Inhabited TranscriptEntry := ⟨⟨Speaker.System, ""⟩⟩

/-- `CallState` enum from `src/types.ts`. -/
inductive CallState
  | Idle
  | Connecting
  | Connected
  | Ended
  deriving DecidableEq, Repr

/-- A scheduled playback buffer source: its scheduled start offset on the
output audio clock and the decoded buffer duration. -/
structure Frag where
  start : ℚ
  dur : ℚ
  deriving DecidableEq, Repr

instance : Inhabited Frag := ⟨⟨0, 0⟩⟩

/-- The fields of a `LiveServerMessage.serverContent` that the `onmessage`
handlers inspect: optional input/output transcription text, the turn-complete
flag, optional inline reply audio (represented by the duration of its decoded
buffer), and the interrupted flag. -/
structure Message where
  inputTranscription : Option String
  outputTranscription : Option String
  turnComplete : Bool
  audioDur : Option ℚ
  interrupted : Bool
  deriving DecidableEq, Repr

/-- The mutable state held by either app component across callbacks:
React state (`callState`, `transcript`, summary panel state) and refs
(accumulators, playback cursor, live source set, resource handles). -/
structure AppState where
  callState : CallState
  transcript : List TranscriptEntry
  accIn : String
  accOut : String
  nextStartTime : ℚ
  sources : List Frag
  stopped : List Frag
  session : Bool
  stream : Bool
  inputCtx : Bool
  outputCtx : Bool
  scriptProcessor : Bool
  lastCallTranscript : Option (List TranscriptEntry)
  summaryRequested : Option (List TranscriptEntry)
  deriving DecidableEq, Repr

/-- A state with nothing acquired, empty transcript and accumulators, zero
cursor, in the `Idle` call state. -/
def cleanIdle : AppState :=
  { callState := CallState.Idle
    transcript := []
    accIn := ""
    accOut := ""
    nextStartTime := 0
    sources := []
    stopped := []
    session := false
    stream := false
    inputCtx := false
    outputCtx := false
    scriptProcessor := false
    lastCallTranscript := none
    summaryRequested := none }

/-- Ordered concatenation of a list of strings (the reference notion used to
state the aggregation properties). -/
def strConcat : List String → String
  | [] => ""
  | t :: rest => t ++ strConcat rest

/-- JavaScript `String.prototype.trim`: strips whitespace from both ends.
Written over `String.data` so that it reduces in the kernel. -/
def strTrim (s : String) : String :=
  ⟨List.reverse (List.dropWhile Char.isWhitespace
    (List.reverse (List.dropWhile Char.isWhitespace s.data)))⟩

/-- Variant A `onmessage`, input-transcription branch (App.tsx lines 108-117):
append the event text to the input accumulator; if the last transcript entry
is a `User` entry, rewrite its text to the accumulator, otherwise append a new
`User` entry carrying the accumulator. -/
def handleInputA (t : String) (st : AppState) : AppState :=
  let acc := st.accIn ++ t
  let tr :=
    match st.transcript.getLast? with
    | some last =>
        if last.speaker = Speaker.User then
          st.transcript.dropLast ++ [{ last with text := acc }]
        else
          st.transcript ++ [⟨Speaker.User, acc⟩]
    | none => st.transcript ++ [⟨Speaker.User, acc⟩]
  { st with accIn := acc, transcript := tr }

/-- Variant A `onmessage`, output-transcription branch (App.tsx lines
118-128), symmetric to `handleInputA` with the `Agent` speaker. -/
def handleOutputA (t : String) (st : AppState) : AppState :=
  let acc := st.accOut ++ t
  let tr :=
    match st.transcript.getLast? with
    | some last =>
        if last.speaker = Speaker.Agent then
          st.transcript.dropLast ++ [{ last with text := acc }]
        else
          st.transcript ++ [⟨Speaker.Agent, acc⟩]
    | none => st.transcript ++ [⟨Speaker.Agent, acc⟩]
  { st with accOut := acc, transcript := tr }

/-- Variant A `onmessage` handler (App.tsx lines 107-153), handled atomically
at output-clock reading `clock`.  Order follows the source: transcription
(input takes precedence over output via `else if`), then the turn-complete
reset of both accumulators, then audio scheduling, then the interrupted
flush. -/
def onmessageA (clock : ℚ) (m : Message) (st : AppState) : AppState :=
  let st1 :=
    match m.inputTranscription with
    | some t => handleInputA t st
    | none =>
        match m.outputTranscription with
        | some t => handleOutputA t st
        | none => st
  let st2 := if m.turnComplete then { st1 with accIn := "", accOut := "" } else st1
  let st3 :=
    match m.audioDur with
    | some d =>
        let s := max st2.nextStartTime clock
        { st2 with
            nextStartTime := s + d
            sources := st2.sources ++ [⟨s, d⟩] }
    | none => st2
  if m.interrupted then
    { st3 with
        stopped := st3.stopped ++ st3.sources
        sources := []
        nextStartTime := 0 }
  else st3

/-- Variant A `cleanup` (App.tsx lines 24-42): close the session, stop the
microphone tracks, disconnect the script processor, close both audio
contexts, stop every live source and clear the set. -/
def cleanupA (st : AppState) : AppState :=
  { st with
      session := false
      stream := false
      scriptProcessor := false
      inputCtx := false
      outputCtx := false
      stopped := st.stopped ++ st.sources
      sources := [] }

/-- Variant A `endCall` (App.tsx lines 44-54), synchronous part: guarded on
`Connected`; moves to `Ended` and runs `cleanup`.  The delayed `setTimeout`
continuation is modelled separately by `endCallTimeoutA`. -/
def endCallA (st : AppState) : AppState :=
  if st.callState = CallState.Connected then
    cleanupA { st with callState := CallState.Ended }
  else st

/-- Variant A `endCall` delayed continuation (App.tsx lines 48-52): after the
display delay, return to `Idle` and clear the transcript. -/
def endCallTimeoutA (st : AppState) : AppState :=
  { st with callState := CallState.Idle, transcript := [] }

/-- Variant A `onerror` callback (App.tsx lines 154-158): logs and invokes
`endCall`. -/
def onerrorA (st : AppState) : AppState :=
  endCallA st

/-- Variant A `onclose` callback (App.tsx lines 159-163): logs and invokes
`cleanup` only — it does not invoke `endCall`. -/
def oncloseA (st : AppState) : AppState :=
  cleanupA st

/-- Variant A `startCall` (App.tsx lines 56-172) as a function of the
outcomes of its three fallible steps: microphone acquisition (`micOk`),
audio-context creation (`ctxOk`) and the session handshake (`handshakeOk`).
Guarded on `Idle`; on any failure the `catch` block only sets the call state
back to `Idle`.  The `Connected` transition itself happens later in `onopen`
and is not part of this function. -/
def startCallA (micOk ctxOk handshakeOk : Bool) (st : AppState) : AppState :=
  if st.callState ≠ CallState.Idle then st
  else
    let st1 := { st with callState := CallState.Connecting, transcript := [] }
    if micOk = false then { st1 with callState := CallState.Idle }
    else
      let st2 := { st1 with stream := true }
      if ctxOk = false then { st2 with callState := CallState.Idle }
      else
        let st3 :=
          { st2 with inputCtx := true, outputCtx := true, nextStartTime := 0 }
        if handshakeOk = false then { st3 with callState := CallState.Idle }
        else { st3 with session := true }

/-- Append a `System` transcript entry (`addTranscriptEntry('System', …)` of
the template variant). -/
def addSystemEntry (text : String) (st : AppState) : AppState :=
  { st with transcript := st.transcript ++ [⟨Speaker.System, text⟩] }

/-- Variant B `onmessage` handler (App.tsx lines 381-432).  Incremental
transcription events only extend the accumulators (independent `if`s); on
turn-complete the trimmed accumulators are appended as final entries (first
`User`, then `Agent`, each only when non-empty) and both accumulators reset;
then audio scheduling and the interrupted flush exactly as in variant A. -/
def onmessageB (clock : ℚ) (m : Message) (st : AppState) : AppState :=
  let st1 :=
    match m.inputTranscription with
    | some t => { st with accIn := st.accIn ++ t }
    | none => st
  let st2 :=
    match m.outputTranscription with
    | some t => { st1 with accOut := st1.accOut ++ t }
    | none => st1
  let st3 :=
    if m.turnComplete then
      let finalInput := strTrim st2.accIn
      let finalOutput := strTrim st2.accOut
      let tr1 :=
        if finalInput ≠ "" then st2.transcript ++ [⟨Speaker.User, finalInput⟩]
        else st2.transcript
      let tr2 :=
        if finalOutput ≠ "" then tr1 ++ [⟨Speaker.Agent, finalOutput⟩]
        else tr1
      { st2 with transcript := tr2, accIn := "", accOut := "" }
    else st2
  let st4 :=
    match m.audioDur with
    | some d =>
        let s := max st3.nextStartTime clock
        { st3 with
            nextStartTime := s + d
            sources := st3.sources ++ [⟨s, d⟩] }
    | none => st3
  if m.interrupted then
    { st4 with
        stopped := st4.stopped ++ st4.sources
        sources := []
        nextStartTime := 0 }
  else st4

/-- Variant B `endCall` (App.tsx lines 460-491), synchronous part: close the
session, disconnect the processor and source node, close both contexts, stop
and clear every live source (the playback cursor is not touched, and the
microphone stream tracks are never stopped); if the transcript has more than
two entries, hand it to the summary generator; clear the transcript and move
to `Ended` unconditionally — there is no `Connected` guard. -/
def endCallB (st : AppState) : AppState :=
  let st1 :=
    { st with
        session := false
        scriptProcessor := false
        inputCtx := false
        outputCtx := false
        stopped := st.stopped ++ st.sources
        sources := [] }
  let st2 :=
    if 2 < st1.transcript.length then
      { st1 with
          lastCallTranscript := some st1.transcript
          summaryRequested := some st1.transcript }
    else st1
  { st2 with transcript := [], callState := CallState.Ended }

/-- Variant B `endCall` delayed continuation (App.tsx line 490). -/
def endCallTimeoutB (st : AppState) : AppState :=
  { st with callState := CallState.Idle }

/-- Variant B `onerror` callback (App.tsx lines 433-437): append a `System`
entry with the error message, then invoke `endCall`. -/
def onerrorB (emsg : String) (st : AppState) : AppState :=
  endCallB (addSystemEntry ("Error: " ++ emsg) st)

/-- Variant B `onclose` callback (App.tsx lines 438-441): append a `System`
entry, then invoke `endCall`. -/
def oncloseB (st : AppState) : AppState :=
  endCallB (addSystemEntry "Session closed." st)

/-- A message carrying only input-transcription text. -/
def inputMsg (t : String) : Message :=
  ⟨some t, none, false, none, false⟩

/-- A message carrying only output-transcription text. -/
def outputMsg (t : String) : Message :=
  ⟨none, some t, false, none, false⟩

/-- A message carrying only a reply-audio fragment of duration `d`. -/
def audioMsg (d : ℚ) : Message :=
  ⟨none, none, false, some d, false⟩

/-- A message carrying only the turn-complete flag. -/
def turnCompleteMsg : Message :=
  ⟨none, none, true, none, false⟩

/-- A message carrying only the interrupted flag. -/
def interruptMsg : Message :=
  ⟨none, none, false, none, true⟩

/-- Handle, in order, a sequence of reply-audio fragments through the variant
A `onmessage` handler; each list element pairs the output-clock reading at
handling time with the fragment's decoded duration. -/
def runAudioA (st : AppState) (evs : List (ℚ × ℚ)) : AppState :=
  evs.foldl (fun s e => onmessageA e.1 (audioMsg e.2) s) st

/-- Handle, in order, a sequence of input-transcription events through the
variant A `onmessage` handler. -/
def runInputsA (st : AppState) (ts : List String) : AppState :=
  ts.foldl (fun s t => onmessageA 0 (inputMsg t) s) st

/-- Handle, in order, a sequence of output-transcription events through the
variant A `onmessage` handler. -/
def runOutputsA (st : AppState) (ts : List String) : AppState :=
  ts.foldl (fun s t => onmessageA 0 (outputMsg t) s) st

/-- Reference recursion for the fragments the scheduler produces from cursor
`c`: each event `(t, d)` is scheduled at `max c t` and advances the cursor to
`max c t + d`. -/
def schedList (c : ℚ) : List (ℚ × ℚ) → List Frag
  | [] => []
  | (t, d) :: rest => ⟨max c t, d⟩ :: schedList (max c t + d) rest

/-- Reference recursion for the cursor value after scheduling a sequence of
events from cursor `c`. -/
def schedCursor (c : ℚ) : List (ℚ × ℚ) → ℚ
  | [] => c
  | (t, d) :: rest => schedCursor (max c t + d) rest

/-- ECMAScript truncation toward zero (`ToIntegerOrInfinity` on a finite
value), over exact rational sample values. -/
def jsTrunc (q : ℚ) : ℤ :=
  if 0 ≤ q then ⌊q⌋ else ⌈q⌉

/-- ECMAScript `ToInt16`, the conversion applied when a number is stored into
an `Int16Array` element: truncate, reduce modulo 2^16, and map into the
signed 16-bit range. -/
def toInt16 (v : ℚ) : ℤ :=
  let i := jsTrunc v
  let m := i % 65536
  if m < 32768 then m else m - 65536

/-- The capture-pipeline sample conversion (App.tsx line 96 and line 369):
`int16[i] = inputData[i] * 32768` — scale by 32768 and store into an
`Int16Array` slot, with no clamping. -/
def convertSample (x : ℚ) : ℤ :=
  toInt16 (x * 32768)

/-! ### Scheduler lemmas -/

lemma onmessageA_audio (clock d : ℚ) (st : AppState) :
    onmessageA clock (audioMsg d) st =
      { st with
          nextStartTime := max st.nextStartTime clock + d
          sources := st.sources ++ [⟨max st.nextStartTime clock, d⟩] } := rfl

lemma runAudioA_spec (evs : List (ℚ × ℚ)) : ∀ st : AppState,
    runAudioA st evs =
      { st with
          sources := st.sources ++ schedList st.nextStartTime evs
          nextStartTime := schedCursor st.nextStartTime evs } := by
  induction evs with
  | nil => intro st; simp [runAudioA, schedList, schedCursor]
  | cons e rest ih =>
      intro st
      obtain ⟨t, d⟩ := e
      have h1 : runAudioA st ((t, d) :: rest)
          = runAudioA (onmessageA t (audioMsg d) st) rest := rfl
      rw [h1, onmessageA_audio, ih]
      simp [schedList, schedCursor]

lemma schedList_length (c : ℚ) (evs : List (ℚ × ℚ)) :
    (schedList c evs).length = evs.length := by
  induction evs generalizing c with
  | nil => rfl
  | cons e rest ih =>
      obtain ⟨t, d⟩ := e
      simp [schedList, ih]

lemma schedCursor_take (evs : List (ℚ × ℚ)) : ∀ (c : ℚ) (i : ℕ), i < evs.length →
    schedCursor c (evs.take (i + 1))
      = max (schedCursor c (evs.take i)) (evs[i]!).1 + (evs[i]!).2 := by
  induction evs with
  | nil => intro c i h; simp at h
  | cons e rest ih =>
      intro c i h
      obtain ⟨t, d⟩ := e
      cases i with
      | zero => simp [schedCursor]
      | succ j =>
          have hj : j < rest.length := by simpa using h
          simpa [schedCursor] using ih (max c t + d) j hj

lemma schedList_get (evs : List (ℚ × ℚ)) : ∀ (c : ℚ) (i : ℕ), i < evs.length →
    (schedList c evs)[i]!
      = ⟨max (schedCursor c (evs.take i)) (evs[i]!).1, (evs[i]!).2⟩ := by
  induction evs with
  | nil => intro c i h; simp at h
  | cons e rest ih =>
      intro c i h
      obtain ⟨t, d⟩ := e
      cases i with
      | zero => simp [schedList, schedCursor]
      | succ j =>
          have hj : j < rest.length := by simpa using h
          simpa [schedList, schedCursor] using ih (max c t + d) j hj

/-- C1: for reply fragments handled in order, each fragment is scheduled to
begin at `max(nextStartTime, clock)`, the cursor then advances by exactly the
fragment's duration, fragment `i+1` never starts before fragment `i` ends,
and when fragment `i+1` arrives (clock reading) before fragment `i`'s end it
is scheduled exactly at that end, leaving no gap. -/
theorem c1_scheduler_gapless (st : AppState) (hsrc : st.sources = [])
    (evs : List (ℚ × ℚ)) (i : ℕ) (h : i < evs.length) :
    ((runAudioA st evs).sources).length = evs.length ∧
    (((runAudioA st evs).sources)[i]!).start
      = max ((runAudioA st (evs.take i)).nextStartTime) (evs[i]!).1 ∧
    (((runAudioA st evs).sources)[i]!).dur = (evs[i]!).2 ∧
    (runAudioA st (evs.take (i + 1))).nextStartTime
      = (((runAudioA st evs).sources)[i]!).start
        + (((runAudioA st evs).sources)[i]!).dur ∧
    ∀ _h2 : i + 1 < evs.length,
      (((runAudioA st evs).sources)[i]!).start
          + (((runAudioA st evs).sources)[i]!).dur
        ≤ (((runAudioA st evs).sources)[i + 1]!).start ∧
      ((evs[i + 1]!).1
          ≤ (((runAudioA st evs).sources)[i]!).start
            + (((runAudioA st evs).sources)[i]!).dur →
        (((runAudioA st evs).sources)[i + 1]!).start
          = (((runAudioA st evs).sources)[i]!).start
            + (((runAudioA st evs).sources)[i]!).dur) := by
  have hsrcs : (runAudioA st evs).sources = schedList st.nextStartTime evs := by
    rw [runAudioA_spec]; simp [hsrc]
  have hcur : ∀ l, (runAudioA st l).nextStartTime = schedCursor st.nextStartTime l := by
    intro l; rw [runAudioA_spec]
  have hget : ∀ j, j < evs.length →
      ((runAudioA st evs).sources)[j]!
        = ⟨max (schedCursor st.nextStartTime (evs.take j)) (evs[j]!).1, (evs[j]!).2⟩ := by
    intro j hj
    rw [hsrcs]
    exact schedList_get evs _ j hj
  refine ⟨by rw [hsrcs, schedList_length], ?_, ?_, ?_, ?_⟩
  · rw [hget i h, hcur]
  · rw [hget i h]
  · rw [hcur, schedCursor_take evs _ i h, hget i h]
  · intro h2
    have e1 := hget i h
    have e2 := hget (i + 1) h2
    have hc := schedCursor_take evs st.nextStartTime i h
    constructor
    · rw [e1, e2, hc]
      exact le_max_left _ _
    · intro hle
      rw [e1] at hle
      rw [e2, hc, e1]
      dsimp only at hle ⊢
      exact max_eq_left hle

/-- Witness for C1: two fragments, the second arriving (clock `1`) before the
first (scheduled at `2`, duration `1`) ends; it is scheduled exactly at the
first fragment's end. -/
theorem c1_scheduler_gapless_witness :
    (((runAudioA { cleanIdle with callState := CallState.Connected }
        [((2 : ℚ), (1 : ℚ)), ((1 : ℚ), (3 : ℚ))]).sources)[1]!).start
      = (((runAudioA { cleanIdle with callState := CallState.Connected }
          [((2 : ℚ), (1 : ℚ)), ((1 : ℚ), (3 : ℚ))]).sources)[0]!).start
        + (((runAudioA { cleanIdle with callState := CallState.Connected }
          [((2 : ℚ), (1 : ℚ)), ((1 : ℚ), (3 : ℚ))]).sources)[0]!).dur := by
  have h := c1_scheduler_gapless { cleanIdle with callState := CallState.Connected } rfl
      [((2 : ℚ), (1 : ℚ)), ((1 : ℚ), (3 : ℚ))] 0 (by norm_num)
  exact (h.2.2.2.2 (by norm_num)).2 (by
    norm_num [runAudioA, onmessageA, audioMsg, cleanIdle, max_def])

/-- C2: an interrupted message, in either variant, stops every fragment that
was in the live set, leaves the live set empty, and resets the cursor to
zero, however many fragments were in flight. -/
theorem c2_interrupt_flush (clock : ℚ) (m : Message) (st : AppState)
    (h : m.interrupted = true) :
    ((onmessageA clock m st).sources = [] ∧
      (onmessageA clock m st).nextStartTime = 0 ∧
      ∀ f ∈ st.sources, f ∈ (onmessageA clock m st).stopped) ∧
    ((onmessageB clock m st).sources = [] ∧
      (onmessageB clock m st).nextStartTime = 0 ∧
      ∀ f ∈ st.sources, f ∈ (onmessageB clock m st).stopped) := by
  obtain ⟨it, ot, tc, ad, ir⟩ := m
  simp only [Message.interrupted] at h
  subst h
  constructor <;>
    refine ⟨?_, ?_, ?_⟩ <;>
      cases it <;> cases ot <;> cases tc <;> cases ad <;>
        simp [onmessageA, onmessageB, handleInputA, handleOutputA] <;> tauto

/-- Concrete state for the C2 witness: `Connected`, cursor `5`, three
fragments in flight. -/
def stC2W : AppState :=
  { cleanIdle with
      callState := CallState.Connected
      nextStartTime := 5
      sources := [⟨0, 2⟩, ⟨2, 2⟩, ⟨4, 1⟩] }

/-- Witness for C2: the interruption empties the three-fragment live set,
zeroes the cursor, and each in-flight fragment was stopped. -/
theorem c2_interrupt_flush_witness :
    (onmessageA 3 interruptMsg stC2W).sources = [] ∧
    (onmessageA 3 interruptMsg stC2W).nextStartTime = 0 ∧
    (⟨4, 1⟩ : Frag) ∈ (onmessageA 3 interruptMsg stC2W).stopped := by
  have h := c2_interrupt_flush 3 interruptMsg stC2W rfl
  exact ⟨h.1.1, h.1.2.1, h.1.2.2 ⟨4, 1⟩ (by simp [stC2W])⟩

/-! ### Transcript aggregation (variant A) -/

lemma onmessageA_input (clock : ℚ) (t : String) (st : AppState) :
    onmessageA clock (inputMsg t) st = handleInputA t st := rfl

lemma onmessageA_output (clock : ℚ) (t : String) (st : AppState) :
    onmessageA clock (outputMsg t) st = handleOutputA t st := rfl

lemma runInputsA_open (ts : List String) :
    ∀ (st : AppState) (pre : List TranscriptEntry) (acc : String),
    st.transcript = pre ++ [⟨Speaker.User, acc⟩] → st.accIn = acc →
    (runInputsA st ts).transcript = pre ++ [⟨Speaker.User, acc ++ strConcat ts⟩] ∧
    (runInputsA st ts).accIn = acc ++ strConcat ts := by
  induction ts with
  | nil =>
      intro st pre acc h1 h2
      simp [runInputsA, strConcat, String.append_empty, h1, h2]
  | cons t rest ih =>
      intro st pre acc h1 h2
      have hstep : runInputsA st (t :: rest) = runInputsA (handleInputA t st) rest := rfl
      have hh : handleInputA t st
          = { st with
                accIn := acc ++ t
                transcript := pre ++ [⟨Speaker.User, acc ++ t⟩] } := by
        unfold handleInputA
        rw [h1, h2]
        simp [List.getLast?_concat, List.dropLast_concat]
      have hrec := ih { st with
          accIn := acc ++ t
          transcript := pre ++ [⟨Speaker.User, acc ++ t⟩] } pre (acc ++ t) rfl rfl
      rw [hstep, hh]
      refine ⟨?_, ?_⟩
      · rw [hrec.1, strConcat, String.append_assoc]
      · rw [hrec.2, strConcat, String.append_assoc]

lemma runOutputsA_open (ts : List String) :
    ∀ (st : AppState) (pre : List TranscriptEntry) (acc : String),
    st.transcript = pre ++ [⟨Speaker.Agent, acc⟩] → st.accOut = acc →
    (runOutputsA st ts).transcript = pre ++ [⟨Speaker.Agent, acc ++ strConcat ts⟩] ∧
    (runOutputsA st ts).accOut = acc ++ strConcat ts := by
  induction ts with
  | nil =>
      intro st pre acc h1 h2
      simp [runOutputsA, strConcat, String.append_empty, h1, h2]
  | cons t rest ih =>
      intro st pre acc h1 h2
      have hstep : runOutputsA st (t :: rest) = runOutputsA (handleOutputA t st) rest := rfl
      have hh : handleOutputA t st
          = { st with
                accOut := acc ++ t
                transcript := pre ++ [⟨Speaker.Agent, acc ++ t⟩] } := by
        unfold handleOutputA
        rw [h1, h2]
        simp [List.getLast?_concat, List.dropLast_concat]
      have hrec := ih { st with
          accOut := acc ++ t
          transcript := pre ++ [⟨Speaker.Agent, acc ++ t⟩] } pre (acc ++ t) rfl rfl
      rw [hstep, hh]
      refine ⟨?_, ?_⟩
      · rw [hrec.1, strConcat, String.append_assoc]
      · rw [hrec.2, strConcat, String.append_assoc]

lemma handleInputA_fresh (t : String) (st : AppState) (h1 : st.accIn = "")
    (h2 : ∀ e ∈ st.transcript.getLast?, e.speaker ≠ Speaker.User) :
    handleInputA t st
      = { st with
            accIn := t
            transcript := st.transcript ++ [⟨Speaker.User, t⟩] } := by
  unfold handleInputA
  rw [h1]
  rcases hlast : st.transcript.getLast? with _ | e
  · simp [String.empty_append]
  · have := h2 e (by rw [hlast]; rfl)
    simp [this, String.empty_append]

lemma handleOutputA_fresh (t : String) (st : AppState) (h1 : st.accOut = "")
    (h2 : ∀ e ∈ st.transcript.getLast?, e.speaker ≠ Speaker.Agent) :
    handleOutputA t st
      = { st with
            accOut := t
            transcript := st.transcript ++ [⟨Speaker.Agent, t⟩] } := by
  unfold handleOutputA
  rw [h1]
  rcases hlast : st.transcript.getLast? with _ | e
  · simp [String.empty_append]
  · have := h2 e (by rw [hlast]; rfl)
    simp [this, String.empty_append]

/-- C3: a run of incremental transcription events for one speaker, with no
turn-complete in between and starting from a state whose accumulator for that
speaker is empty and whose last transcript entry (if any) belongs to another
speaker, yields exactly one new transcript entry for the open turn, whose
text is the ordered concatenation of the event texts. -/
theorem c3_aggregation (st : AppState) (ts : List String) (hne : ts ≠ []) :
    (st.accIn = "" →
      (∀ e ∈ st.transcript.getLast?, e.speaker ≠ Speaker.User) →
      (runInputsA st ts).transcript
        = st.transcript ++ [⟨Speaker.User, strConcat ts⟩] ∧
      (runInputsA st ts).accIn = strConcat ts) ∧
    (st.accOut = "" →
      (∀ e ∈ st.transcript.getLast?, e.speaker ≠ Speaker.Agent) →
      (runOutputsA st ts).transcript
        = st.transcript ++ [⟨Speaker.Agent, strConcat ts⟩] ∧
      (runOutputsA st ts).accOut = strConcat ts) := by
  rcases ts with _ | ⟨t, rest⟩
  · exact absurd rfl hne
  constructor
  · intro h1 h2
    have hstep : runInputsA st (t :: rest) = runInputsA (handleInputA t st) rest := rfl
    rw [hstep, handleInputA_fresh t st h1 h2]
    have hrec := runInputsA_open rest
        { st with accIn := t, transcript := st.transcript ++ [⟨Speaker.User, t⟩] }
        st.transcript t rfl rfl
    exact ⟨by rw [hrec.1, strConcat], by rw [hrec.2, strConcat]⟩
  · intro h1 h2
    have hstep : runOutputsA st (t :: rest) = runOutputsA (handleOutputA t st) rest := rfl
    rw [hstep, handleOutputA_fresh t st h1 h2]
    have hrec := runOutputsA_open rest
        { st with accOut := t, transcript := st.transcript ++ [⟨Speaker.Agent, t⟩] }
        st.transcript t rfl rfl
    exact ⟨by rw [hrec.1, strConcat], by rw [hrec.2, strConcat]⟩

/-- Witness for C3: the two user events "Hel" then "lo" with no turn-complete
in between produce exactly one `User` entry with text "Hello". -/
theorem c3_aggregation_witness :
    (runInputsA { cleanIdle with callState := CallState.Connected }
        ["Hel", "lo"]).transcript
      = [⟨Speaker.User, "Hello"⟩] := by
  have h := (c3_aggregation { cleanIdle with callState := CallState.Connected }
      ["Hel", "lo"] (by simp)).1 rfl (by simp [cleanIdle])
  rw [h.1]
  decide

/-! ### Turn-complete finalization (C4) -/

/-- Concrete state for the C4 counterexample: one finished `User` turn
recorded in the transcript, accumulator still holding its text. -/
def stC4 : AppState :=
  { cleanIdle with
      callState := CallState.Connected
      transcript := [⟨Speaker.User, "Hello"⟩]
      accIn := "Hello" }

/-- Counterexample to C4 (simple variant): after a turn-complete, the next
`User` event does not open a brand-new entry — it overwrites the finalized
`User` entry in place. -/
theorem c4_turn_finalize_counterexample :
    (onmessageA 0 (inputMsg "Bye") (onmessageA 0 turnCompleteMsg stC4)).transcript
      = [⟨Speaker.User, "Bye"⟩] ∧
    (onmessageA 0 (inputMsg "Bye") (onmessageA 0 turnCompleteMsg stC4)).transcript
      ≠ stC4.transcript ++ [⟨Speaker.User, "Bye"⟩] := by
  constructor <;> decide

/-- C4 (amended): a turn-complete resets both accumulators to empty in both
variants; in the simple variant a subsequent incremental event for a speaker
appends a brand-new entry only when the last transcript entry belongs to a
different speaker — when it belongs to the same speaker, the event overwrites
that finalized entry's text in place. -/
theorem c4_amended_turn_reset (clock clock2 : ℚ) (m : Message) (st : AppState)
    (t : String) (hm : m.turnComplete = true) :
    (onmessageA clock m st).accIn = "" ∧
    (onmessageA clock m st).accOut = "" ∧
    (onmessageB clock m st).accIn = "" ∧
    (onmessageB clock m st).accOut = "" ∧
    (m.inputTranscription = none → m.outputTranscription = none →
      ∀ last, st.transcript.getLast? = some last →
        ((last.speaker = Speaker.User →
          (onmessageA clock2 (inputMsg t) (onmessageA clock m st)).transcript
            = st.transcript.dropLast ++ [⟨Speaker.User, t⟩]) ∧
         (last.speaker ≠ Speaker.User →
          (onmessageA clock2 (inputMsg t) (onmessageA clock m st)).transcript
            = st.transcript ++ [⟨Speaker.User, t⟩]))) := by
  obtain ⟨it, ot, tc, ad, ir⟩ := m
  simp only [Message.turnComplete] at hm
  subst hm
  refine ⟨?_, ?_, ?_, ?_, ?_⟩
  · cases it <;> cases ot <;> cases ad <;> cases ir <;>
      simp [onmessageA, handleInputA, handleOutputA]
  · cases it <;> cases ot <;> cases ad <;> cases ir <;>
      simp [onmessageA, handleInputA, handleOutputA]
  · cases it <;> cases ot <;> cases ad <;> cases ir <;>
      simp [onmessageB]
  · cases it <;> cases ot <;> cases ad <;> cases ir <;>
      simp [onmessageB]
  · intro hin hout last hlast
    simp only [Message.inputTranscription] at hin
    simp only [Message.outputTranscription] at hout
    subst hin
    subst hout
    constructor
    · intro hsp
      cases ad <;> cases ir <;>
        simp [onmessageA, inputMsg, handleInputA, hlast, hsp, String.empty_append]
    · intro hsp
      cases ad <;> cases ir <;>
        simp [onmessageA, inputMsg, handleInputA, hlast, hsp, String.empty_append]

/-- Concrete state for the C4 witness: a finished `Agent` turn is the last
transcript entry. -/
def stC4W : AppState :=
  { cleanIdle with
      callState := CallState.Connected
      transcript := [⟨Speaker.Agent, "Hi"⟩]
      accOut := "Hi" }

/-- Witness for the amended C4: turn-complete clears the accumulator, and a
`User` event after an `Agent` turn appends a brand-new entry. -/
theorem c4_amended_turn_reset_witness :
    (onmessageA 0 turnCompleteMsg stC4W).accOut = "" ∧
    (onmessageA 0 (inputMsg "Yo") (onmessageA 0 turnCompleteMsg stC4W)).transcript
      = [⟨Speaker.Agent, "Hi"⟩, ⟨Speaker.User, "Yo"⟩] := by
  have h := c4_amended_turn_reset 0 0 turnCompleteMsg stC4W "Yo" rfl
  refine ⟨h.2.1, ?_⟩
  have h5 := (h.2.2.2.2 rfl rfl ⟨Speaker.Agent, "Hi"⟩ (by decide)).2 (by decide)
  simpa [stC4W] using h5

/-! ### End-of-call behaviour (C5, C6) -/

lemma endCallB_components (st : AppState) :
    (endCallB st).sources = [] ∧
    (endCallB st).nextStartTime = st.nextStartTime ∧
    (endCallB st).stopped = st.stopped ++ st.sources ∧
    (endCallB st).callState = CallState.Ended ∧
    (endCallB st).transcript = [] ∧
    (endCallB st).session = false ∧
    (endCallB st).stream = st.stream := by
  unfold endCallB
  dsimp only
  split <;> simp

lemma endCallB_summary (st : AppState) (h : 2 < st.transcript.length) :
    (endCallB st).summaryRequested = some st.transcript ∧
    (endCallB st).lastCallTranscript = some st.transcript := by
  unfold endCallB
  dsimp only
  rw [if_pos h]
  exact ⟨rfl, rfl⟩

/-- Counterexample to C5: in the template variant, `endCall` invoked while
the state is `Idle` is not a no-op — it unconditionally transitions the call
state to `Ended`. -/
theorem c5_end_guard_counterexample :
    cleanIdle.callState = CallState.Idle ∧
    (endCallB cleanIdle).callState = CallState.Ended := by
  constructor <;> decide

/-- C5 (amended): in the simple variant `end()` outside `Connected` is a
strict no-op; in the template variant `endCall` performs its full teardown
and `Ended` transition unconditionally, whatever the current state. -/
theorem c5_amended_end_guard (st : AppState) :
    (st.callState ≠ CallState.Connected → endCallA st = st) ∧
    ((endCallB st).callState = CallState.Ended ∧
      (endCallB st).sources = [] ∧
      (endCallB st).session = false ∧
      (endCallB st).transcript = []) := by
  have hb := endCallB_components st
  exact ⟨fun h => by simp [endCallA, h], hb.2.2.2.1, hb.1, hb.2.2.2.2.2.1, hb.2.2.2.2.1⟩

/-- Concrete state for the C5 witness: a `Connecting` call with the initial
`System` entry of the template variant. -/
def stC5W : AppState :=
  { cleanIdle with
      callState := CallState.Connecting
      transcript := [⟨Speaker.System, "Initializing session..."⟩] }

/-- Witness for the amended C5: from `Connecting`, the simple variant's
`endCall` changes nothing, while the template variant's still ends the
call. -/
theorem c5_amended_end_guard_witness :
    endCallA stC5W = stC5W ∧ (endCallB stC5W).callState = CallState.Ended := by
  have h := c5_amended_end_guard stC5W
  exact ⟨h.1 (by decide), h.2.1⟩

/-- Concrete state for the C6 counterexample: `Connected`, cursor `5`, one
fragment in flight. -/
def stC6 : AppState :=
  { cleanIdle with
      callState := CallState.Connected
      nextStartTime := 5
      sources := [⟨2, 1⟩] }

/-- Counterexample to C6: ending a connected call flushes the live set but
leaves the playback cursor at its old value — it does not become zero, in
either variant. -/
theorem c6_end_flush_counterexample :
    stC6.callState = CallState.Connected ∧
    (endCallA stC6).sources = [] ∧
    (endCallA stC6).nextStartTime ≠ 0 ∧
    (endCallB stC6).nextStartTime ≠ 0 := by
  refine ⟨rfl, rfl, ?_, ?_⟩
  · decide
  · rw [(endCallB_components stC6).2.1]; decide

/-- C6 (amended): after `end()` from `Connected`, every pending fragment is
stopped and the live set is empty, but the playback cursor keeps its previous
value (it is reset only on interruption, or — in the simple variant — when
the next call starts). -/
theorem c6_amended_end_flush (st : AppState) (h : st.callState = CallState.Connected) :
    (endCallA st).sources = [] ∧
    (endCallA st).nextStartTime = st.nextStartTime ∧
    (∀ f ∈ st.sources, f ∈ (endCallA st).stopped) ∧
    (endCallB st).sources = [] ∧
    (endCallB st).nextStartTime = st.nextStartTime ∧
    (∀ f ∈ st.sources, f ∈ (endCallB st).stopped) := by
  have hb := endCallB_components st
  refine ⟨by simp [endCallA, cleanupA, h], by simp [endCallA, cleanupA, h], ?_,
    hb.1, hb.2.1, ?_⟩
  · intro f hf
    simp [endCallA, cleanupA, h]
    exact Or.inr hf
  · intro f hf
    rw [hb.2.2.1]
    simp
    exact Or.inr hf

/-- Concrete state for the C6 witness. -/
def stC6W : AppState :=
  { cleanIdle with
      callState := CallState.Connected
      nextStartTime := 7
      sources := [⟨1, 2⟩] }

/-- Witness for the amended C6: ending the call empties the live set, stops
the in-flight fragment, and keeps the cursor at `7`. -/
theorem c6_amended_end_flush_witness :
    (endCallA stC6W).sources = [] ∧
    (endCallA stC6W).nextStartTime = 7 ∧
    (⟨1, 2⟩ : Frag) ∈ (endCallA stC6W).stopped := by
  have h := c6_amended_end_flush stC6W rfl
  exact ⟨h.1, by rw [h.2.1]; rfl, h.2.2.1 ⟨1, 2⟩ (by decide)⟩

/-! ### Remote-initiated error and close (C7) -/

/-- Concrete state for the C7 counterexample: a connected call with acquired
resources and a one-entry transcript. -/
def stC7 : AppState :=
  { cleanIdle with
      callState := CallState.Connected
      transcript := [⟨Speaker.User, "hi"⟩]
      session := true
      stream := true
      inputCtx := true
      outputCtx := true
      scriptProcessor := true }

/-- Counterexample to C7: in the simple variant, a remote close while
`Connected` releases resources but performs no `end()` state transition and
records no `System` entry — the state stays `Connected` and the transcript is
untouched. -/
theorem c7_remote_close_counterexample :
    stC7.callState = CallState.Connected ∧
    (oncloseA stC7).callState ≠ CallState.Ended ∧
    (oncloseA stC7).callState = CallState.Connected ∧
    (oncloseA stC7).transcript = stC7.transcript := by
  refine ⟨rfl, ?_, rfl, rfl⟩
  decide

/-- C7 (amended): in the template variant, `onerror`/`onclose` append a
`System` entry recording the event and then run the same teardown as
`endCall`; in the simple variant no `System` entry is ever recorded —
`onerror` performs the `end()` teardown and transition, while `onclose` only
releases resources and leaves the call state and transcript unchanged. -/
theorem c7_amended_remote_events (st : AppState)
    (h : st.callState = CallState.Connected) (emsg : String) :
    (onerrorA st).callState = CallState.Ended ∧
    (onerrorA st).session = false ∧
    (onerrorA st).transcript = st.transcript ∧
    (oncloseA st).callState = CallState.Connected ∧
    (oncloseA st).session = false ∧
    (oncloseA st).transcript = st.transcript ∧
    (onerrorB emsg st).callState = CallState.Ended ∧
    (oncloseB st).callState = CallState.Ended ∧
    (2 ≤ st.transcript.length →
      (onerrorB emsg st).summaryRequested
        = some (st.transcript ++ [⟨Speaker.System, "Error: " ++ emsg⟩]) ∧
      (oncloseB st).summaryRequested
        = some (st.transcript ++ [⟨Speaker.System, "Session closed."⟩])) := by
  refine ⟨?_, ?_, ?_, ?_, ?_, ?_, ?_, ?_, ?_⟩
  · simp [onerrorA, endCallA, cleanupA, h]
  · simp [onerrorA, endCallA, cleanupA, h]
  · simp [onerrorA, endCallA, cleanupA, h]
  · simp [oncloseA, cleanupA, h]
  · simp [oncloseA, cleanupA]
  · simp [oncloseA, cleanupA]
  · exact (endCallB_components _).2.2.2.1
  · exact (endCallB_components _).2.2.2.1
  · intro hlen
    constructor
    · have := (endCallB_summary (addSystemEntry ("Error: " ++ emsg) st)
        (by simp [addSystemEntry]; omega)).1
      simpa [addSystemEntry, onerrorB] using this
    · have := (endCallB_summary (addSystemEntry "Session closed." st)
        (by simp [addSystemEntry]; omega)).1
      simpa [addSystemEntry, oncloseB] using this

/-- Concrete state for the C7 witness. -/
def stC7W : AppState :=
  { cleanIdle with
      callState := CallState.Connected
      transcript := [⟨Speaker.User, "a"⟩, ⟨Speaker.Agent, "b"⟩]
      session := true }

/-- Witness for the amended C7: `onerror` ends the simple-variant call,
`onclose` leaves it `Connected`, and the template variant hands the
transcript — `System` entry included — to the summary generator. -/
theorem c7_amended_remote_events_witness :
    (onerrorA stC7W).callState = CallState.Ended ∧
    (oncloseA stC7W).callState = CallState.Connected ∧
    (oncloseB stC7W).summaryRequested
      = some [⟨Speaker.User, "a"⟩, ⟨Speaker.Agent, "b"⟩,
              ⟨Speaker.System, "Session closed."⟩] := by
  have h := c7_amended_remote_events stC7W rfl "boom"
  refine ⟨h.1, h.2.2.2.1, ?_⟩
  have h9 := (h.2.2.2.2.2.2.2.2 (by decide)).2
  simpa [stC7W] using h9

/-! ### Setup failure in startCall (C8) -/

/-- Counterexample to C8: a handshake failure reverts the state to `Idle` but
the microphone stream and both audio contexts acquired before the failure
stay held — partial resources are retained. -/
theorem c8_start_failure_counterexample :
    (startCallA true true false cleanIdle).callState = CallState.Idle ∧
    (startCallA true true false cleanIdle).stream = true ∧
    (startCallA true true false cleanIdle).inputCtx = true ∧
    (startCallA true true false cleanIdle).outputCtx = true := by
  refine ⟨?_, ?_, ?_, ?_⟩ <;> decide

/-- C8 (amended): any setup failure during `start()` reverts the call state
to `Idle`, but resources acquired before the failing step are retained, not
released: a microphone denial acquires nothing, a context failure retains the
stream, and a handshake failure retains the stream and both contexts (only
the session handle is never set). -/
theorem c8_amended_start_failure (st : AppState)
    (h : st.callState = CallState.Idle) (mic ctx hs : Bool) :
    ((mic = false ∨ ctx = false ∨ hs = false) →
      (startCallA mic ctx hs st).callState = CallState.Idle) ∧
    (startCallA false ctx hs st).stream = st.stream ∧
    (startCallA false ctx hs st).inputCtx = st.inputCtx ∧
    (startCallA false ctx hs st).session = st.session ∧
    (startCallA true false hs st).stream = true ∧
    (startCallA true true false st).stream = true ∧
    (startCallA true true false st).inputCtx = true ∧
    (startCallA true true false st).outputCtx = true ∧
    (startCallA true true false st).session = st.session := by
  constructor
  · intro hfail
    cases mic <;> cases ctx <;> cases hs <;> simp_all [startCallA]
  · refine ⟨?_, ?_, ?_, ?_, ?_, ?_, ?_, ?_⟩ <;>
      cases ctx <;> cases hs <;> simp [startCallA, h]

/-- Witness for the amended C8: a microphone denial keeps the stream
unacquired; a handshake failure reverts to `Idle` yet keeps the stream. -/
theorem c8_amended_start_failure_witness :
    (startCallA false true true cleanIdle).callState = CallState.Idle ∧
    (startCallA false true true cleanIdle).stream = false ∧
    (startCallA true true false cleanIdle).callState = CallState.Idle ∧
    (startCallA true true false cleanIdle).stream = true := by
  have h1 := c8_amended_start_failure cleanIdle rfl false true true
  have h2 := c8_amended_start_failure cleanIdle rfl true true false
  exact ⟨h1.1 (Or.inl rfl), by rw [h1.2.1]; rfl, h2.1 (Or.inr (Or.inr rfl)),
    h2.2.2.2.2.2.1⟩

/-! ### PCM sample conversion (C9) -/

/-- C9: the emitted integer is the truncation of `x * 32768` reduced modulo
2^16 into the signed 16-bit range (`Int.bmod _ 65536` is exactly that
reduction), with no clamping: the result is always in `[-32768, 32768)` and
congruent to the truncation modulo 2^16, and out-of-range samples wrap
around — `x = 1` yields `-32768` (not a saturated `32767`) and `x = -3/2`
yields `16384` (not `-32768`). -/
theorem c9_pcm_wraparound (x : ℚ) :
    convertSample x = (jsTrunc (x * 32768)).bmod 65536 ∧
    -32768 ≤ convertSample x ∧ convertSample x < 32768 ∧
    (65536 : ℤ) ∣ (jsTrunc (x * 32768) - convertSample x) ∧
    convertSample 1 = -32768 ∧
    convertSample (-(3 : ℚ) / 2) = 16384 := by
  have key : ∀ v : ℚ, toInt16 v = (jsTrunc v).bmod 65536 ∧
      -32768 ≤ toInt16 v ∧ toInt16 v < 32768 ∧
      (65536 : ℤ) ∣ (jsTrunc v - toInt16 v) := by
    intro v
    unfold toInt16
    generalize jsTrunc v = i
    dsimp only
    refine ⟨?_, ?_, ?_, ?_⟩
    · unfold Int.bmod
      norm_num
    · split <;> omega
    · split <;> omega
    · split <;> omega
  have h1 : convertSample 1 = -32768 := by
    have ha : ((1 : ℚ) * 32768) = ((32768 : ℤ) : ℚ) := by norm_num
    have hb : jsTrunc ((1 : ℚ) * 32768) = 32768 := by
      rw [jsTrunc, ha]
      norm_num
    unfold convertSample toInt16
    rw [hb]
    decide
  have h2 : convertSample (-(3 : ℚ) / 2) = 16384 := by
    have ha : (-(3 : ℚ) / 2 * 32768) = ((-49152 : ℤ) : ℚ) := by norm_num
    have hb : jsTrunc (-(3 : ℚ) / 2 * 32768) = -49152 := by
      rw [jsTrunc, ha, if_neg (by norm_num)]
      exact Int.ceil_intCast _
    unfold convertSample toInt16
    rw [hb]
    decide
  exact ⟨(key (x * 32768)).1, (key (x * 32768)).2.1, (key (x * 32768)).2.2.1,
    (key (x * 32768)).2.2.2, h1, h2⟩

/-! ### Template-variant transcript entries (C10) -/

/-- C10: in the template variant, messages without the turn-complete flag
never change the transcript; a turn-complete message appends at most two
entries — first a `User` entry with the trimmed accumulated input
transcription (only if non-empty after trimming), then an `Agent` entry with
the trimmed accumulated output transcription (only if non-empty). -/
theorem c10_template_turn_entries (clock : ℚ) (m : Message) (st : AppState) :
    (m.turnComplete = false → (onmessageB clock m st).transcript = st.transcript) ∧
    (m.turnComplete = true →
      (onmessageB clock m st).transcript
        = st.transcript
          ++ (if strTrim (st.accIn ++ m.inputTranscription.getD "") = "" then []
              else [⟨Speaker.User,
                      strTrim (st.accIn ++ m.inputTranscription.getD "")⟩])
          ++ (if strTrim (st.accOut ++ m.outputTranscription.getD "") = "" then []
              else [⟨Speaker.Agent,
                      strTrim (st.accOut ++ m.outputTranscription.getD "")⟩])) := by
  obtain ⟨it, ot, tc, ad, ir⟩ := m
  constructor
  · intro h
    simp only [Message.turnComplete] at h
    subst h
    cases it <;> cases ot <;> cases ad <;> cases ir <;> simp [onmessageB]
  · intro h
    simp only [Message.turnComplete] at h
    subst h
    cases it <;> cases ot <;> cases ad <;> cases ir <;>
      · simp only [onmessageB, Option.getD_some, Option.getD_none,
          String.append_empty, Message.inputTranscription,
          Message.outputTranscription, Message.audioDur, Message.interrupted]
        split_ifs <;> simp_all [List.append_assoc]

/-- Concrete state and message for the C10 witness. -/
def stC10W : AppState :=
  { cleanIdle with callState := CallState.Connected, accIn := " hi " }

/-- The C10 witness message: closing output text plus the turn-complete
flag. -/
def mC10W : Message :=
  ⟨none, some " ok ", true, none, false⟩

/-- Witness for C10: at turn-complete the trimmed input and output
accumulations are appended as one `User` and one `Agent` entry. -/
theorem c10_template_turn_entries_witness :
    (onmessageB 0 mC10W stC10W).transcript
      = [⟨Speaker.User, "hi"⟩, ⟨Speaker.Agent, "ok"⟩] := by
  have h := (c10_template_turn_entries 0 mC10W stC10W).2 rfl
  rw [h]
  decide
